import Mathlib

/-!
Verification development for the eslint-plugin-react-snob rule engine.

The development shallowly embeds the TSESTree expression/statement nodes that
the plugin's rules inspect, together with the classification, complexity and
naming helpers of `src/utils` and the per-rule local helpers, and proves the
behavioural properties stated about them.

Strings from the TypeScript source are modelled as Lean `String`s; where a
universal statement needs character-level reasoning (the naming engine), names
are modelled as `List Char`, the standard shallow embedding of JS strings.
Regular-expression tests from the source are modelled as explicit character
tests with the same semantics on the inputs the source applies them to
(alphanumeric identifier prefixes; no regex metacharacters arise).
-/

/-- ASCII uppercase-letter test, the character class `[A-Z]` of the source regexes. -/
def isAZChar (c : Char) : Bool := 'A' ≤ c && c ≤ 'Z'

/-- Character class `[A-Z_0-9]` used by the all-caps constant-name regex. -/
def isConstChar (c : Char) : Bool := isAZChar c || c == '_' || ('0' ≤ c && c ≤ '9')

/-- Sequence of characters of a JS string (the naming engine works at this level). -/
abbrev Chars := List Char

/-- `s.toLowerCase()` on a character sequence. -/
def lowerChars (s : Chars) : Chars := s.map Char.toLower

/-- `s.toUpperCase()` on a character sequence. -/
def upperChars (s : Chars) : Chars := s.map Char.toUpper

/-- `/^[A-Z_0-9]+$/.test(s)`: nonempty, all characters in the constant class. -/
def isConstChars (s : Chars) : Bool := !s.isEmpty && s.all isConstChar

/-- `s.charAt(0).toUpperCase() + s.slice(1)`: capitalize the first character. -/
def capitalizeChars : Chars → Chars
  | [] => []
  | c :: cs => c.toUpper :: cs

/-- Test for a regex of shape `^lp[A-Z]`: literal characters `lp` at the start,
followed by an ASCII capital. -/
def camelMatch (lp s : Chars) : Bool :=
  lp.isPrefixOf s &&
    (match s.drop lp.length with
     | c :: _ => isAZChar c
     | [] => false)

/- ===== TypeScript type annotations (the subset the rules inspect) ===== -/

/-- `typeName` of a TSTypeReference: a plain Identifier or a qualified name. -/
inductive TSTypeName where
  | ident (s : String)
  | qualified
deriving DecidableEq

mutual
/-- TypeScript type nodes appearing in the annotations the rules read. -/
inductive TSType where
  | typeRef (name : TSTypeName) (args : TSTypeList)
  | typeLit
  | boolKeyword
  | unionType (types : TSTypeList)
  | otherType
inductive TSTypeList where
  | nil
  | cons (head : TSType) (tail : TSTypeList)
end

def TSTypeList.length : TSTypeList → Nat
  | .nil => 0
  | .cons _ t => 1 + t.length

def TSTypeList.get? : TSTypeList → Nat → Option TSType
  | .nil, _ => none
  | .cons h _, 0 => some h
  | .cons _ t, n + 1 => t.get? n

/- ===== AST nodes ===== -/

/-- A JSX attribute name: `JSXIdentifier` or `JSXNamespacedName`. -/
inductive AttrName where
  | ident (s : String)
  | namespaced (ns nm : String)
deriving DecidableEq

mutual
/-- The TSESTree node kinds the rules traverse. Literal nodes are split by the
runtime type of their `value` (`boolLit` / `strLit` / `numLit` / `nullLit`),
mirroring the `typeof node.value` tests of the source; `strLit` additionally
carries the literal's `raw` source text used by the fixer. An `ident` carries
the optional type annotation read by `require-boolean-prefix-is`. `hole` is a
null element of an array pattern. Template literals are modelled opaquely: no
rule recurses into their parts. -/
inductive Node where
  | boolLit (b : Bool)
  | strLit (value raw : String)
  | numLit (n : Nat)
  | nullLit
  | ident (name : String) (tyAnn : Option TSType)
  | unary (op : String) (arg : Node)
  | binary (op : String) (left right : Node)
  | logical (op : String) (left right : Node)
  | cond (test consequent alternate : Node)
  | assign (op : String) (left right : Node)
  | member (obj prop : Node) (computed : Bool)
  | call (callee : Node) (typeArgs : List TSType) (args : NodeList)
  | spreadElem (arg : Node)
  | templateLit
  | jsxElement (name : String) (attrs children : NodeList)
  | jsxFragment (children : NodeList)
  | jsxAttribute (name : AttrName) (value : OptNode)
  | jsxExprContainer (expr : Node)
  | jsxEmptyExpr
  | arrowFnExpr (params body : NodeList)
  | funcExpr (params body : NodeList)
  | funcDecl (name : Option String) (params body : NodeList)
  | objectPattern (props : NodeList) (tyAnn : Option TSType)
  | arrayPattern (elements : NodeList)
  | hole
  | varDeclarator (idPat : Node) (init : OptNode)
  | varDecl (decls : NodeList)
  | exprStmt (e : Node)
  | program (stmts : NodeList)
inductive OptNode where
  | none
  | some (n : Node)
inductive NodeList where
  | nil
  | cons (head : Node) (tail : NodeList)
end

def NodeList.length : NodeList → Nat
  | .nil => 0
  | .cons _ t => 1 + t.length

/- ===== Shared utils: src/utils/boolean-utils.ts ===== -/

/-- `isBooleanType` (boolean-utils.ts): the annotation is the `boolean` keyword
or a union containing it; absent annotation is not boolean. -/
def anyBoolKeyword : TSTypeList → Bool
  | .nil => false
  | .cons t rest => (match t with | .boolKeyword => true | _ => false) || anyBoolKeyword rest

def isBooleanType (tyAnn : Option TSType) : Bool :=
  match tyAnn with
  | Option.none => false
  | Option.some .boolKeyword => true
  | Option.some (.unionType ts) => anyBoolKeyword ts
  | Option.some _ => false

/-- `isBooleanLiteral` (boolean-utils.ts): a Literal whose value is a boolean. -/
def isBooleanLiteral : Node → Bool
  | .boolLit _ => true
  | _ => false

/-- The comparison-operator list `['==','===','!=','!==','<','>','<=','>=']`. -/
def isComparisonOp (op : String) : Bool :=
  op == "==" || op == "===" || op == "!=" || op == "!==" ||
  op == "<" || op == ">" || op == "<=" || op == ">="

/-- `isBooleanExpression` (boolean-utils.ts): boolean literal; `!`; comparison;
logical expression unless the operator is `??`; ternary with a boolean branch. -/
def isBooleanExpression : Node → Bool
  | .boolLit _ => true
  | .unary op _ => op == "!"
  | .binary op _ _ => isComparisonOp op
  | .logical op _ _ => !(op == "??")
  | .cond _ c a => isBooleanExpression c || isBooleanExpression a
  | _ => false

/-- The identifier pattern `/^(is|has|can|should|will|does|did|was|were|am|are|be)[A-Z]/`. -/
def booleanIdentAlternatives : List Chars :=
  [['i','s'], ['h','a','s'], ['c','a','n'], ['s','h','o','u','l','d'],
   ['w','i','l','l'], ['d','o','e','s'], ['d','i','d'], ['w','a','s'],
   ['w','e','r','e'], ['a','m'], ['a','r','e'], ['b','e']]

def booleanIdentTest (name : String) : Bool :=
  booleanIdentAlternatives.any (fun alt => camelMatch alt name.data)

/-- `isLikelyBooleanExpression` (boolean-utils.ts). -/
def isLikelyBooleanExpression : Node → Bool
  | .unary op _ => op == "!"
  | .binary op _ _ => isComparisonOp op
  | .cond _ c a => isLikelyBooleanExpression c || isLikelyBooleanExpression a
  | .logical _ l r => isLikelyBooleanExpression l && isLikelyBooleanExpression r
  | .boolLit _ => true
  | .ident name _ => booleanIdentTest name
  | _ => false

/-- `isDerivedBooleanExpression` (boolean-utils.ts): a logical expression whose
both operands are likely boolean; a `!`; a comparison; a ternary whose both
branches are likely boolean. -/
def isDerivedBooleanExpression : Node → Bool
  | .logical _ l r => isLikelyBooleanExpression l && isLikelyBooleanExpression r
  | .unary op _ => op == "!"
  | .binary op _ _ => isComparisonOp op
  | .cond _ c a => isLikelyBooleanExpression c && isLikelyBooleanExpression a
  | _ => false

/-- `isUseStateWithBoolean` (boolean-utils.ts): callee is the identifier
`useState`, at least one argument, the first is not a spread and is a boolean
literal or a boolean expression (shared classifier). -/
def isUseStateWithBoolean : Node → Bool
  | .call callee _ args =>
    (match callee with | .ident s _ => s == "useState" | _ => false) &&
    (match args with
     | .cons first _ =>
       (match first with
        | .spreadElem _ => false
        | e => isBooleanLiteral e || isBooleanExpression e)
     | .nil => false)
  | _ => false

/- ===== Shared utils: src/utils/ast-traversal.ts ===== -/

/-- `expr.operator.endsWith('=') && expr.operator !== '='`. -/
def compoundAssignOp (op : String) : Bool :=
  (match op.data.getLast? with
   | Option.some c => c == '='
   | Option.none => false) && !(op == "=")

mutual
/-- `countLogicalOperators` (ast-traversal.ts): counts logical expressions and
compound assignment operator sites, recursing through ternaries, binary and
unary expressions, member expressions (object, plus computed property) and
non-spread call arguments. Other node kinds contribute 0. -/
def countLogicalOperators : Node → Nat
  | .logical _ l r => 1 + countLogicalOperators l + countLogicalOperators r
  | .assign op l r =>
    if compoundAssignOp op then 1 + countLogicalOperators l + countLogicalOperators r else 0
  | .cond t c a => countLogicalOperators t + countLogicalOperators c + countLogicalOperators a
  | .binary _ l r => countLogicalOperators l + countLogicalOperators r
  | .unary _ e => countLogicalOperators e
  | .member o p computed => countLogicalOperators o + (if computed then countLogicalOperators p else 0)
  | .call _ _ args => countLogicalArgs args
  | _ => 0
def countLogicalArgs : NodeList → Nat
  | .nil => 0
  | .cons a rest =>
    (match a with | .spreadElem _ => 0 | e => countLogicalOperators e) + countLogicalArgs rest
end

mutual
/-- `hasTemplateLiteral` (ast-traversal.ts). -/
def hasTemplateLiteral : Node → Bool
  | .templateLit => true
  | .logical _ l r => hasTemplateLiteral l || hasTemplateLiteral r
  | .unary _ e => hasTemplateLiteral e
  | .binary _ l r => hasTemplateLiteral l || hasTemplateLiteral r
  | .cond t c a => hasTemplateLiteral t || hasTemplateLiteral c || hasTemplateLiteral a
  | .member o p computed => hasTemplateLiteral o || (if computed then hasTemplateLiteral p else false)
  | .call _ _ args => hasTemplateLiteralArgs args
  | _ => false
def hasTemplateLiteralArgs : NodeList → Bool
  | .nil => false
  | .cons a rest =>
    (match a with | .spreadElem _ => false | e => hasTemplateLiteral e) || hasTemplateLiteralArgs rest
end

/-- `hasLogicalAssignment` (ast-traversal.ts): a `||=`/`&&=`/`??=` assignment,
searching only through logical expressions. -/
def hasLogicalAssignment : Node → Bool
  | .assign op _ _ => op == "||=" || op == "&&=" || op == "??="
  | .logical _ l r => hasLogicalAssignment l || hasLogicalAssignment r
  | _ => false

/-- Depth of the member-access chain walked by `isComplexOperand`'s while loop. -/
def memberChainDepth : Node → Nat
  | .member o _ _ => 1 + memberChainDepth o
  | _ => 0

/-- `isComplexOperand` (ast-traversal.ts): member chain of depth > 1, a call
with at least one argument, any binary expression, or a nested logical. -/
def isComplexOperand : Node → Bool
  | .member o p computed => 1 < memberChainDepth (.member o p computed)
  | .call _ _ args => 0 < args.length
  | .binary _ _ _ => true
  | .logical _ _ _ => true
  | _ => false

/- ===== Sanity examples kept as plain theorems over concrete inputs ===== -/

def nid (s : String) : Node := .ident s Option.none

/- ===== Rule-local helpers of src/rules/require-derived-conditional-prefix.ts ===== -/

namespace RDCP

/-- Local `hasUnderscorePrefix`: `name.startsWith('_')`. -/
def startsWithUnderscore (name : String) : Bool :=
  match name.data with
  | '_' :: _ => true
  | _ => false

/-- Local `suggestUnderscorePrefix`: the name unchanged if it already starts
with an underscore, otherwise with `_` prepended. -/
def suggestUnderscoreName (name : String) : String :=
  if startsWithUnderscore name then name else "_" ++ name

/-- Local copy of `isLikelyBooleanExpression`, textually identical to the
shared one in boolean-utils.ts. -/
def isLikelyBooleanExpression : Node → Bool
  | .unary op _ => op == "!"
  | .binary op _ _ => isComparisonOp op
  | .cond _ c a => isLikelyBooleanExpression c || isLikelyBooleanExpression a
  | .logical _ l r => isLikelyBooleanExpression l && isLikelyBooleanExpression r
  | .boolLit _ => true
  | .ident name _ => booleanIdentTest name
  | _ => false

/-- Local copy of `isDerivedBooleanExpression`, textually identical to the
shared one in boolean-utils.ts. -/
def isDerivedBooleanExpression : Node → Bool
  | .logical _ l r => isLikelyBooleanExpression l && isLikelyBooleanExpression r
  | .unary op _ => op == "!"
  | .binary op _ _ => isComparisonOp op
  | .cond _ c a => isLikelyBooleanExpression c && isLikelyBooleanExpression a
  | _ => false

/-- `isStringFallbackPattern` applied to a logical expression with operands
`l`, `r`: either side is a Literal with a string value. -/
def isStringFallbackPattern (l r : Node) : Bool :=
  (match r with | .strLit _ _ => true | _ => false) ||
  (match l with | .strLit _ _ => true | _ => false)

/-- `isComplexDerivedExpression`: a derived boolean expression, or any
expression containing a logical operator, except a `value || 'default'`
string-fallback logical-OR. -/
def isComplexDerivedExpression (n : Node) : Bool :=
  if isDerivedBooleanExpression n then true
  else if 0 < countLogicalOperators n then
    (match n with
     | .logical op l r => !(op == "||" && isStringFallbackPattern l r)
     | _ => true)
  else false

mutual
/-- `containsJSX`: depth-first search over all child fields for a JSX element
or fragment. The source threads a visited set to guard against cycles through
back-references; the embedded tree has no such cycles, so the guard is a
no-op and the search is plain structural recursion. -/
def containsJSX : Node → Bool
  | .jsxElement _ _ _ => true
  | .jsxFragment _ => true
  | .unary _ e => containsJSX e
  | .binary _ l r => containsJSX l || containsJSX r
  | .logical _ l r => containsJSX l || containsJSX r
  | .assign _ l r => containsJSX l || containsJSX r
  | .cond t c a => containsJSX t || containsJSX c || containsJSX a
  | .member o p _ => containsJSX o || containsJSX p
  | .call callee _ args => containsJSX callee || containsJSXList args
  | .spreadElem e => containsJSX e
  | .jsxAttribute _ v => containsJSXOpt v
  | .jsxExprContainer e => containsJSX e
  | .arrowFnExpr ps body => containsJSXList ps || containsJSXList body
  | .funcExpr ps body => containsJSXList ps || containsJSXList body
  | .funcDecl _ ps body => containsJSXList ps || containsJSXList body
  | .objectPattern props _ => containsJSXList props
  | .arrayPattern elems => containsJSXList elems
  | .varDeclarator idPat init => containsJSX idPat || containsJSXOpt init
  | .varDecl decls => containsJSXList decls
  | .exprStmt e => containsJSX e
  | .program stmts => containsJSXList stmts
  | _ => false
def containsJSXOpt : OptNode → Bool
  | .none => false
  | .some n => containsJSX n
def containsJSXList : NodeList → Bool
  | .nil => false
  | .cons h t => containsJSX h || containsJSXList t
end

end RDCP

/- ===== Rule-local helpers of src/rules/no-complex-jsx-conditions.ts ===== -/

namespace NCJC

/-- `hasComplexTernaryCondition`: on a ternary, the test contains a logical
operator, or a nested ternary branch is itself complex; the source only ever
applies it to ConditionalExpression nodes, so other kinds map to false. -/
def hasComplexTernaryCondition : Node → Bool
  | .cond t c a =>
    0 < countLogicalOperators t ||
    (match c with | .cond _ _ _ => hasComplexTernaryCondition c | _ => false) ||
    (match a with | .cond _ _ _ => hasComplexTernaryCondition a | _ => false)
  | _ => false

/-- `traverseLogical` inside `hasComplexOperandsInChain`: descend the logical
chain and test each leaf operand with `isComplexOperand`. -/
def chainHasComplexOperand : Node → Bool
  | .logical _ l r => chainHasComplexOperand l || chainHasComplexOperand r
  | e => isComplexOperand e

/-- `isComplexCondition`: more than 2 logical operators; a complex ternary; a
logical chain of 2-3 operators with a complex operand; a logical operator
combined with a template literal; or a logical-assignment operator. A ternary
always returns through the ternary branch, and a logical expression with at
least 2 operators always returns through the operand-chain branch, exactly as
the early returns of the source do. -/
def isComplexCondition (n : Node) : Bool :=
  if 2 < countLogicalOperators n then true
  else
    match n with
    | .cond t c a => hasComplexTernaryCondition (.cond t c a)
    | m =>
      if (match m with | .logical _ _ _ => true | _ => false) && 2 ≤ countLogicalOperators m then
        chainHasComplexOperand m
      else if 1 ≤ countLogicalOperators m && hasTemplateLiteral m then true
      else hasLogicalAssignment m

end NCJC

/- ===== src/utils/naming-utils.ts (character-sequence level) ===== -/

/-- `hasValidPrefix(name, p)` of naming-utils.ts: the camelCase form
`^p[A-Z]` (with `p` lowercased), the constant form `^P_` (with `p`
uppercased), or the underscore form `^_p[A-Z]`. -/
def validPrefixCheck (name p : Chars) : Bool :=
  camelMatch (lowerChars p) name ||
  (upperChars p ++ ['_']).isPrefixOf name ||
  camelMatch ('_' :: lowerChars p) name

/-- `name.startsWith('_')` at the character level. -/
def startsWithUS : Chars → Bool
  | c :: _ => c == '_'
  | [] => false

/-- `suggestPrefixedName(name, allowedPrefixes)` of naming-utils.ts: the name
unchanged when some allowed entry already matches; otherwise rewrite with the
first allowed entry, keeping the name's register: `PREFIX_name` for all-caps
constants, `_prefixCapitalizedRest` for underscore-led names (capitalizing
`name.slice(1)`), `prefixCapitalizedName` otherwise. The source indexes
`allowedPrefixes[0]` unconditionally, so an empty list is outside its domain;
it is defaulted here. -/
def suggestPrefixedName (name : Chars) (allowed : List Chars) : Chars :=
  if allowed.any (fun p => validPrefixCheck name p) then name
  else
    let p := allowed.headD []
    if isConstChars name then upperChars p ++ '_' :: name
    else if startsWithUS name then '_' :: (p ++ capitalizeChars (name.drop 1))
    else p ++ capitalizeChars name

/-- Shape of a starting name on which the suggestion stays stable: the first
character (after at most one leading underscore) uppercases to an ASCII
capital letter, i.e. it is an ASCII letter. Names outside this shape (and
outside the constant and already-compliant shapes) make the capitalized part
of the rewritten name fail the `[A-Z]` test of `hasValidPrefix`, so a second
suggestion pass prepends the prefix again. -/
def stableSuggestShape : Chars → Bool
  | c :: rest =>
    if c == '_' then
      (match rest with
       | c2 :: _ => isAZChar c2.toUpper
       | [] => false)
    else isAZChar c.toUpper
  | [] => false

/- ===== Rule-local helpers of src/rules/require-boolean-prefix-is.ts ===== -/

namespace RBPI

/-- Local `hasIsPrefix`: `/^is[A-Z]/ || /^IS_/ || /^_is[A-Z]/`. -/
def hasIsPrefixed (name : String) : Bool :=
  camelMatch ['i','s'] name.data ||
  (['I','S','_'] : Chars).isPrefixOf name.data ||
  camelMatch ['_','i','s'] name.data

/-- Local `suggestIsPrefix`: unchanged when the name starts with `is`, `IS_`
or `_is` (plain startsWith tests); `IS_` form for all-caps constants; `_is`
form for underscore-led names; `is` + capitalized otherwise. -/
def suggestIsName (name : String) : String :=
  if (['i','s'] : Chars).isPrefixOf name.data ||
     (['I','S','_'] : Chars).isPrefixOf name.data ||
     (['_','i','s'] : Chars).isPrefixOf name.data then name
  else if isConstChars name.data then "IS_" ++ name
  else
    match name.data with
    | '_' :: rest => String.mk ('_' :: 'i' :: 's' :: capitalizeChars rest)
    | cs => String.mk ('i' :: 's' :: capitalizeChars cs)

/-- Local `isBooleanExpression` of require-boolean-prefix-is.ts. Unlike the
shared classifier of boolean-utils.ts, its LogicalExpression case returns true
unconditionally, with no special case for the `??` operator. -/
def isBooleanExpression : Node → Bool
  | .boolLit _ => true
  | .unary op _ => op == "!"
  | .binary op _ _ => isComparisonOp op
  | .logical _ _ _ => true
  | .cond _ c a => isBooleanExpression c || isBooleanExpression a
  | _ => false

/-- Local `isUseStateWithBoolean`, using the rule's local boolean classifier. -/
def isUseStateWithBooleanL : Node → Bool
  | .call callee _ args =>
    (match callee with | .ident s _ => s == "useState" | _ => false) &&
    (match args with
     | .cons first _ =>
       (match first with
        | .spreadElem _ => false
        | e => isBooleanLiteral e || isBooleanExpression e)
     | .nil => false)
  | _ => false

/-- `reportBooleanNaming`: report unless the name already carries the prefix. -/
def reportBooleanNaming (name : String) : List (String × String) :=
  if hasIsPrefixed name then [] else [(name, suggestIsName name)]

/-- The rule's VariableDeclarator handler: useState array-destructuring branch
(report the first destructured identifier when the call is a boolean useState),
then the simple-identifier branch (boolean type annotation, else boolean
initializer). Other id patterns produce nothing. -/
def variableDeclaratorHandler (idPat : Node) (init : OptNode) : List (String × String) :=
  match idPat with
  | .arrayPattern elems =>
    (match init with
     | .some (.call c t a) =>
       if isUseStateWithBooleanL (.call c t a) then
         match elems with
         | .cons (.ident n _) _ => reportBooleanNaming n
         | _ => []
       else []
     | _ => [])
  | .ident name tyAnn =>
    if isBooleanType tyAnn then reportBooleanNaming name
    else
      match init with
      | .some e => if isBooleanLiteral e || isBooleanExpression e then reportBooleanNaming name else []
      | .none => []
  | _ => []

end RBPI

/- ===== src/rules/component-prop-interface-naming.ts ===== -/

namespace CPIN

/-- String suffix test on the character level (`String.prototype.endsWith`). -/
def strEndsWith (s suffix : String) : Bool := suffix.data.isSuffixOf s.data

/-- Drop the last `k` characters of a string. -/
def strDropRight (s : String) (k : Nat) : String :=
  String.mk (s.data.take (s.data.length - k))

/-- `componentName.replace(/(?:Function)?Component$/, '')`, applied under the
guard that the name ends with `Component`: the leftmost match strips
`FunctionComponent` when present, else `Component`. -/
def stripComponentSuffix (n : String) : String :=
  if strEndsWith n "FunctionComponent" then strDropRight n 17 else strDropRight n 9

/-- The always-suggested `{ComponentName}Props` form. -/
def fullExpectedName (componentName : String) : String := componentName ++ "Props"

/-- The alternate accepted form: with a trailing `Component` (optionally
`FunctionComponent`) stripped before appending `Props`; equal to the full form
when the name does not end in `Component`. -/
def baseExpectedName (componentName : String) : String :=
  if strEndsWith componentName "Component" then stripComponentSuffix componentName ++ "Props"
  else fullExpectedName componentName

/-- A diagnostic of the rule, with the `data` payload fields of its report. -/
structure CpinReport where
  actual : String
  component : String
  expected : String
deriving DecidableEq

/-- The report branch of `checkComponentPropsInterface`: report when a name was
resolved and matches neither accepted form, always suggesting the full form. -/
def reportDecision (componentName : String) (actual : Option String) : Option CpinReport :=
  match actual with
  | Option.some a =>
    if a != fullExpectedName componentName && a != baseExpectedName componentName then
      Option.some ⟨a, componentName, fullExpectedName componentName⟩
    else Option.none
  | Option.none => Option.none

/-- First parameter an ObjectPattern with a direct TSTypeReference annotation
whose typeName is an Identifier: the annotation's name; otherwise nothing. -/
def paramsFirstObjectPatternTypeName : NodeList → Option String
  | .cons (.objectPattern _ (Option.some (.typeRef (.ident n) _))) _ => Option.some n
  | _ => Option.none

/-- The while loop unwrapping nested wrapping calls (`memo(forwardRef(...))`)
until an arrow function or function expression is found in argument position;
returns the found function's parameters. A nested call with no arguments is
outside the source's domain (it would fault there) and yields nothing. -/
def unwrapFunctionParams : Node → Option NodeList
  | .call _ _ args =>
    (match args with
     | .cons first _ =>
       (match first with
        | .arrowFnExpr ps _ => Option.some ps
        | .funcExpr ps _ => Option.some ps
        | .call c t a => unwrapFunctionParams (.call c t a)
        | _ => Option.none)
     | .nil => Option.none)
  | _ => Option.none

/-- The forwardRef-with-generics search loop: walk nested wrapping calls to
the call whose callee is the identifier `forwardRef` with at least two type
arguments, and take the second type argument's name when it is a
TSTypeReference with an Identifier typeName. -/
def forwardRefGenericName : Node → Option String
  | .call callee tyArgs args =>
    if (match callee with | .ident s _ => s == "forwardRef" | _ => false) &&
       decide (2 ≤ tyArgs.length) then
      match tyArgs.drop 1 with
      | (.typeRef (.ident n) _) :: _ => Option.some n
      | _ => Option.none
    else
      (match args with
       | .cons (.call c t a) _ => forwardRefGenericName (.call c t a)
       | _ => Option.none)
  | _ => Option.none

mutual
/-- `findInterfaceNamesInTypeReference`: the reference's own Identifier name,
then recursively the names found in its TSTypeReference type arguments. -/
def findInterfaceNamesInTypeReference : TSType → List String
  | .typeRef tn args =>
    (match tn with | .ident s => [s] | _ => []) ++ findInterfaceNamesInArgs args
  | _ => []
def findInterfaceNamesInArgs : TSTypeList → List String
  | .nil => []
  | .cons t rest =>
    (match t with
     | .typeRef _ _ => findInterfaceNamesInTypeReference t
     | _ => []) ++ findInterfaceNamesInArgs rest
end

/-- `Props` / `Options` / `Config` / `Settings` suffix test used to pick the
interface name among generic arguments. -/
def propsLikeSuffix (n : String) : Bool :=
  strEndsWith n "Props" || strEndsWith n "Options" || strEndsWith n "Config" ||
  strEndsWith n "Settings"

/-- The variable-declarator branch reading the variable's own type annotation
(e.g. `FunctionComponent<PropsType>`): search the first generic argument for a
props-like name, overwriting any previously resolved name; fall back to the
first encountered Identifier only when nothing was resolved before. -/
def resolveFromIdAnnotation (prev : Option String) (tyAnn : Option TSType) : Option String :=
  match tyAnn with
  | Option.some (.typeRef _ args) =>
    (match args with
     | .cons ft _ =>
       (match ft with
        | .typeRef ftName _ =>
          (match (findInterfaceNamesInTypeReference ft).find? propsLikeSuffix with
           | Option.some n => Option.some n
           | Option.none =>
             match prev, ftName with
             | Option.none, .ident n0 => Option.some n0
             | _, _ => prev)
        | _ => prev)
     | .nil => prev)
  | _ => prev

/-- Resolution for a VariableDeclarator: the unwrapped function's first
parameter annotation, then (overwriting) a forwardRef generic argument, then
(overwriting) the variable's own annotation search. -/
def resolveVarActual (idTy : Option TSType) (init : OptNode) : Option String :=
  let a1 : Option String :=
    match init with
    | .some (.arrowFnExpr ps _) => paramsFirstObjectPatternTypeName ps
    | .some (.funcExpr ps _) => paramsFirstObjectPatternTypeName ps
    | .some (.call c t a) =>
      (match unwrapFunctionParams (.call c t a) with
       | Option.some ps => paramsFirstObjectPatternTypeName ps
       | Option.none => Option.none)
    | _ => Option.none
  let a2 : Option String :=
    match init with
    | .some (.call c t a) =>
      (match forwardRefGenericName (.call c t a) with
       | Option.some n => Option.some n
       | Option.none => a1)
    | _ => a1
  resolveFromIdAnnotation a2 idTy

/-- `actualInterfaceName` resolution of `checkComponentPropsInterface` for the
two component-shaped declaration kinds. -/
def resolveActualInterfaceName : Node → Option String
  | .funcDecl _ params _ => paramsFirstObjectPatternTypeName params
  | .varDeclarator (.ident _ idTy) init => resolveVarActual idTy init
  | _ => Option.none

/-- `checkComponentPropsInterface` end to end: resolve, then decide. -/
def checkComponentPropsInterface (componentName : String) (node : Node) : Option CpinReport :=
  reportDecision componentName (resolveActualInterfaceName node)

end CPIN

/- ===== Traversal: ESLint's enter-order (pre-order) visit with ancestors ===== -/

/-- Ancestor context of a visit: nearest parent first, each paired with the
child-slot index the path descends through. Slot indices identify a child's
position within its parent (0/1 for left/right of a logical or assignment
expression, 0/1/2 for test/consequent/alternate, 0 for the expression of a
JSXExpressionContainer and the value of a JSXAttribute); paths built from
them serve as node identity, which the host keeps by object reference. -/
abbrev Ctx := List (Node × Nat)

/-- The source-document position of the visited node: root-to-node slot list. -/
def pathOf (ctx : Ctx) : List Nat := (ctx.map Prod.snd).reverse

mutual
/-- Pre-order enumeration of all nodes with their ancestor contexts, in the
order the host rule-runner fires callbacks (a node before its children,
children left to right, attributes before element children). -/
def preorder (n : Node) (ctx : Ctx) : List (Node × Ctx) :=
  (n, ctx) ::
  (match n with
   | .unary _ e => preorder e ((n, 0) :: ctx)
   | .binary _ l r => preorder l ((n, 0) :: ctx) ++ preorder r ((n, 1) :: ctx)
   | .logical _ l r => preorder l ((n, 0) :: ctx) ++ preorder r ((n, 1) :: ctx)
   | .assign _ l r => preorder l ((n, 0) :: ctx) ++ preorder r ((n, 1) :: ctx)
   | .cond t c a =>
     preorder t ((n, 0) :: ctx) ++ preorder c ((n, 1) :: ctx) ++ preorder a ((n, 2) :: ctx)
   | .member o p _ => preorder o ((n, 0) :: ctx) ++ preorder p ((n, 1) :: ctx)
   | .call callee _ args => preorder callee ((n, 0) :: ctx) ++ preorderList args n 1 ctx
   | .spreadElem e => preorder e ((n, 0) :: ctx)
   | .jsxElement _ attrs children =>
     preorderList attrs n 0 ctx ++ preorderList children n attrs.length ctx
   | .jsxFragment children => preorderList children n 0 ctx
   | .jsxAttribute _ v => preorderOpt v n 0 ctx
   | .jsxExprContainer e => preorder e ((n, 0) :: ctx)
   | .arrowFnExpr ps body => preorderList ps n 0 ctx ++ preorderList body n ps.length ctx
   | .funcExpr ps body => preorderList ps n 0 ctx ++ preorderList body n ps.length ctx
   | .funcDecl _ ps body => preorderList ps n 0 ctx ++ preorderList body n ps.length ctx
   | .objectPattern props _ => preorderList props n 0 ctx
   | .arrayPattern elems => preorderList elems n 0 ctx
   | .varDeclarator idPat init => preorder idPat ((n, 0) :: ctx) ++ preorderOpt init n 1 ctx
   | .varDecl decls => preorderList decls n 0 ctx
   | .exprStmt e => preorder e ((n, 0) :: ctx)
   | .program stmts => preorderList stmts n 0 ctx
   | _ => [])
def preorderOpt (v : OptNode) (parent : Node) (slot : Nat) (ctx : Ctx) : List (Node × Ctx) :=
  match v with
  | .none => []
  | .some m => preorder m ((parent, slot) :: ctx)
def preorderList (l : NodeList) (parent : Node) (slot : Nat) (ctx : Ctx) : List (Node × Ctx) :=
  match l with
  | .nil => []
  | .cons h t => preorder h ((parent, slot) :: ctx) ++ preorderList t parent (slot + 1) ctx
end

/- ===== The no-complex-jsx-conditions rule runner ===== -/

namespace NCJC

/-- Rule state: the `checkedNodes` identity set (as positions) and the report
list (positions of reported JSXExpressionContainers, in emission order). -/
structure RuleState where
  checked : List (List Nat)
  reports : List (List Nat)

/-- `checkExpression`: skip already-checked containers, mark, skip empty
expressions, report complex conditions. -/
def checkExpression (p : List Nat) (inner : Node) (st : RuleState) : RuleState :=
  if st.checked.contains p then st
  else
    let st1 : RuleState := ⟨p :: st.checked, st.reports⟩
    match inner with
    | .jsxEmptyExpr => st1
    | e => if isComplexCondition e then ⟨st1.checked, st1.reports ++ [p]⟩ else st1

/-- The two registered callbacks: a JSXAttribute whose value is a container,
and every JSXExpressionContainer. -/
def step (st : RuleState) (v : Node × Ctx) : RuleState :=
  match v.1 with
  | .jsxAttribute _ (.some (.jsxExprContainer inner)) =>
    checkExpression (pathOf v.2 ++ [0]) inner st
  | .jsxExprContainer inner => checkExpression (pathOf v.2) inner st
  | _ => st

/-- Run the rule over one tree; result: reported container positions. -/
def run (root : Node) : List (List Nat) :=
  ((preorder root []).foldl step ⟨[], []⟩).reports

end NCJC

/- ===== The require-derived-conditional-prefix rule runner ===== -/

namespace RDCP

/-- One ancestor test of the while loop in `checkIdentifierInJSXContext`. `a`
is the ancestor under consideration and `path` the slot path from `a` down to
the original identifier, so `expression.left === node` is `path = [0, 0]`
(through the container's expression to its left child), and `parent.test ===
node` / `parent.left === node` are `path = [0]`. -/
def ancestorGatesJSX (a : Node) (path : List Nat) : Bool :=
  (match a with
   | .jsxExprContainer e =>
     (match e with
      | .logical op _ r => op == "&&" && path == [0, 0] && containsJSX r
      | .cond _ c alt => path == [0, 0] && (containsJSX c || containsJSX alt)
      | _ => false)
   | .jsxAttribute (.ident an) _ => an == "condition" || an == "when" || an == "if"
   | .cond _ c alt => path == [0] && (containsJSX c || containsJSX alt)
   | .logical op _ r => op == "&&" && path == [0] && containsJSX r
   | _ => false)

/-- The upward walk of `checkIdentifierInJSXContext` over the ancestor chain. -/
def walkUpGatesJSX : Ctx → List Nat → Bool
  | [], _ => false
  | (a, s) :: rest, below =>
    ancestorGatesJSX a (s :: below) || walkUpGatesJSX rest (s :: below)

/-- Rule state: the `derivedConditionals` name set, the `variableNodes` map
(name to declaring identifier node), and reports `(name, suggested)`. -/
structure RuleState where
  derived : List String
  varNodes : List (String × Node)
  reports : List (String × String)

/-- `reportDerivedConditional`: skip names already underscore-prefixed. -/
def reportDerived (name : String) (st : RuleState) : RuleState :=
  if startsWithUnderscore name then st
  else ⟨st.derived, st.varNodes, st.reports ++ [(name, suggestUnderscoreName name)]⟩

/-- The two registered callbacks: every Identifier (checked against the
tracked set and its JSX ancestor contexts) and every VariableDeclarator with
an identifier pattern and a complex derived initializer (tracked). -/
def step (st : RuleState) (v : Node × Ctx) : RuleState :=
  match v.1 with
  | .ident name _ =>
    if st.derived.contains name && walkUpGatesJSX v.2 [] then
      match st.varNodes.lookup name with
      | Option.some _ => reportDerived name st
      | Option.none => st
    else st
  | .varDeclarator (.ident name tyA) (.some init) =>
    if isComplexDerivedExpression init then
      ⟨name :: st.derived, (name, Node.ident name tyA) :: st.varNodes, st.reports⟩
    else st
  | _ => st

/-- Run the rule over one tree; result: `(name, suggested)` reports in order. -/
def run (root : Node) : List (String × String) :=
  ((preorder root []).foldl step ⟨[], [], []⟩).reports

end RDCP

/- ===== The require-jsx-string-braces rule runner ===== -/

namespace JSB

/-- A diagnostic of the rule: the exact `data` payload (the `attr` field is
the payload's `attribute` key, a reserved word in Lean) and the text the
fixer writes over the attribute value. -/
structure JsbReport where
  attr : String
  value : String
  fixed : Option String
deriving DecidableEq

/-- The attribute-name computation: JSXIdentifier name, or
`namespace:name` for a JSXNamespacedName. -/
def attrNameString : AttrName → String
  | .ident s => s
  | .namespaced ns nm => ns ++ ":" ++ nm

/-- The fixer text: `{` + original quote character + inner raw text + quote +
`}` (charAt(0) and slice(1,-1) of the literal's raw source text). -/
def fixText (raw : String) : String :=
  match raw.data with
  | q :: rest =>
    "\x7b" ++ String.singleton q ++ String.mk rest.dropLast ++ String.singleton q ++ "\x7d"
  | [] => "\x7b\x7d"

/-- The JSXAttribute callback: report every attribute whose value is a string
Literal, with data `{attribute, value}` and the braced replacement. -/
def step (acc : List JsbReport) (v : Node × Ctx) : List JsbReport :=
  match v.1 with
  | .jsxAttribute an (.some (.strLit value raw)) =>
    acc ++ [⟨attrNameString an, value, Option.some (fixText raw)⟩]
  | _ => acc

/-- Run the rule over one tree. -/
def run (root : Node) : List JsbReport :=
  (preorder root []).foldl step []

end JSB

/- ===== Concrete input trees for the end-to-end scenarios ===== -/

/-- The condition `user && data && !isLoading && !error` (left-associated). -/
def scenarioCExpr : Node :=
  .logical "&&"
    (.logical "&&" (.logical "&&" (nid "user") (nid "data")) (.unary "!" (nid "isLoading")))
    (.unary "!" (nid "error"))

/-- `<Conditional condition={user && data && !isLoading && !error}>`. -/
def scenarioCInput : Node :=
  .jsxElement "Conditional"
    (.cons (.jsxAttribute (.ident "condition") (.some (.jsxExprContainer scenarioCExpr))) .nil)
    .nil

/-- `const hasError = error || validationError;`. -/
def hasErrorDecl : Node :=
  .varDecl (.cons
    (.varDeclarator (nid "hasError")
      (.some (.logical "||" (nid "error") (nid "validationError")))) .nil)

/-- `<div>{hasError && <ErrorMessage/>}</div>;` consuming the variable. -/
def hasErrorGatingUse : Node :=
  .exprStmt (.jsxElement "div" .nil
    (.cons (.jsxExprContainer
      (.logical "&&" (nid "hasError") (.jsxElement "ErrorMessage" .nil .nil))) .nil))

/-- Scenario B, gated: the declaration followed by the JSX consumption. -/
def scenarioBInput : Node := .program (.cons hasErrorDecl (.cons hasErrorGatingUse .nil))

/-- `console.log(hasError);` - a use that gates no JSX rendering. -/
def hasErrorPlainUse : Node :=
  .exprStmt (.call (.member (nid "console") (nid "log") false) [] (.cons (nid "hasError") .nil))

/-- Scenario B, ungated: same declaration, no JSX-gating consumption. -/
def scenarioBNoJSXInput : Node := .program (.cons hasErrorDecl (.cons hasErrorPlainUse .nil))

/-- `<div className="text-center">`. -/
def scenarioDInput : Node :=
  .jsxElement "div"
    (.cons (.jsxAttribute (.ident "className")
      (.some (.strLit "text-center" "\"text-center\""))) .nil)
    .nil

/-- `function Button({...}: {inline: object, literal: type}) {...}` - a
component whose first parameter carries an inline object-literal type
annotation instead of a named type reference. -/
def inlineTypedComponent : Node :=
  .funcDecl (Option.some "Button")
    (.cons (.objectPattern .nil (Option.some .typeLit)) .nil) .nil

/- ===== Claim theorems ===== -/

/-- C1: for every logical-OR `x || s` with a string literal `s` as either
operand, `isDerivedBooleanExpression` is false regardless of the other
operand, and `isComplexDerivedExpression` of the
require-derived-conditional-prefix rule treats it as a string-fallback
pattern and returns false, so the rule does not track a variable declared
with such an initializer as a derived conditional. -/
theorem stringFallbackNeverDerived :
    ∀ (x : Node) (s raw : String),
      isDerivedBooleanExpression (.logical "||" x (.strLit s raw)) = false ∧
      isDerivedBooleanExpression (.logical "||" (.strLit s raw) x) = false ∧
      RDCP.isComplexDerivedExpression (.logical "||" x (.strLit s raw)) = false ∧
      RDCP.isComplexDerivedExpression (.logical "||" (.strLit s raw) x) = false := by
  intro x s raw
  have hR : RDCP.isDerivedBooleanExpression (.logical "||" x (.strLit s raw)) = false := by
    simp [RDCP.isDerivedBooleanExpression, RDCP.isLikelyBooleanExpression]
  have hL : RDCP.isDerivedBooleanExpression (.logical "||" (.strLit s raw) x) = false := by
    simp [RDCP.isDerivedBooleanExpression, RDCP.isLikelyBooleanExpression]
  refine ⟨?_, ?_, ?_, ?_⟩
  · simp [isDerivedBooleanExpression, isLikelyBooleanExpression]
  · simp [isDerivedBooleanExpression, isLikelyBooleanExpression]
  · unfold RDCP.isComplexDerivedExpression
    rw [hR]
    simp [RDCP.isStringFallbackPattern]
  · unfold RDCP.isComplexDerivedExpression
    rw [hL]
    simp [RDCP.isStringFallbackPattern]

/-- C2 counterexample: the require-boolean-prefix-is rule's own boolean
classifier (the one its VariableDeclarator handler consumes) classifies a
`??` logical expression as boolean, contradicting the claim that every
consumer of the boolean classification maps `??` to false. -/
theorem rbpiNullishClassifiedBoolean :
    RBPI.isBooleanExpression (.logical "??" (nid "a") (nid "b")) = true := rfl

/-- C2 amended: the shared classifier of boolean-utils.ts maps every `??`
logical expression to false and every `&&`/`||` logical expression to true,
while the local classifier of require-boolean-prefix-is maps every logical
expression, `??` included, to true. -/
theorem booleanClassifierLogicalOperators :
    ∀ (l r : Node),
      isBooleanExpression (.logical "??" l r) = false ∧
      isBooleanExpression (.logical "&&" l r) = true ∧
      isBooleanExpression (.logical "||" l r) = true ∧
      RBPI.isBooleanExpression (.logical "??" l r) = true := by
  intro l r
  exact ⟨rfl, rfl, rfl, rfl⟩

/-- C3: `countLogicalOperators` is additive under nesting, counting 3 on
`(a&&b)||(c&&d)`; but a compound assignment such as `+=` is also counted as
an operator site (any assignment operator ending in `=` other than plain
`=`), contributing 1, not 0 as the claim and the function's own doc comment
state. -/
theorem countLogicalOperatorsOnExamples :
    countLogicalOperators
      (.logical "||" (.logical "&&" (nid "a") (nid "b"))
                     (.logical "&&" (nid "c") (nid "d"))) = 3 ∧
    countLogicalOperators (.assign "+=" (nid "a") (nid "b")) = 1 := by
  exact ⟨rfl, rfl⟩

/-- C4: on `<Conditional condition={user && data && !isLoading && !error}>`,
the no-complex-jsx-conditions rule reports exactly once: the expression holds
3 logical operators, above the fixed threshold of 2, and the shared
checked-nodes set keeps the container - reachable through both the
JSXAttribute and the JSXExpressionContainer callback - from being reported a
second time. -/
theorem scenarioCExactlyOneDiagnostic :
    NCJC.run scenarioCInput = [[0, 0]] ∧
    (NCJC.run scenarioCInput).length = 1 ∧
    2 < countLogicalOperators scenarioCExpr := by
  exact ⟨rfl, rfl, by decide⟩

/-- C5: `const hasError = error || validationError;` followed by
`{hasError && <ErrorMessage/>}` yields exactly one diagnostic, on `hasError`
with suggestion `_hasError`; the identical declaration whose only further use
is `console.log(hasError)` - no JSX-gating consumption - yields none. -/
theorem scenarioBDiagnostics :
    RDCP.run scenarioBInput = [("hasError", "_hasError")] ∧
    RDCP.run scenarioBNoJSXInput = [] := by
  exact ⟨rfl, rfl⟩

/-- C9: on `<div className="text-center">` the require-jsx-string-braces rule
emits exactly one diagnostic whose data payload is
`{attribute: "className", value: "text-center"}` and whose fix rewrites the
attribute value to the original literal wrapped in curly braces, preserving
its original quote character. -/
theorem scenarioDExactlyOneDiagnostic :
    JSB.run scenarioDInput
      = [⟨"className", "text-center", Option.some "\x7b\"text-center\"\x7d"⟩] := by
  rfl

/-- C7: whenever no interface or type-alias name can be resolved for a
component-shaped declaration, the component-prop-interface-naming rule emits
no diagnostic. -/
theorem unresolvedInterfaceNoDiagnostic :
    ∀ (node : Node) (componentName : String),
      CPIN.resolveActualInterfaceName node = Option.none →
      CPIN.checkComponentPropsInterface componentName node = Option.none := by
  intro node componentName h
  unfold CPIN.checkComponentPropsInterface
  rw [h]
  rfl

/-- C7 witness: a component whose first parameter has an inline object-literal
type annotation resolves to no name and draws no diagnostic. -/
theorem unresolvedInterfaceNoDiagnosticWitness :
    CPIN.resolveActualInterfaceName inlineTypedComponent = Option.none ∧
    CPIN.checkComponentPropsInterface "Button" inlineTypedComponent = Option.none :=
  ⟨rfl, unresolvedInterfaceNoDiagnostic inlineTypedComponent "Button" rfl⟩

/-- C6: the expected prop-interface name for `Button` is `ButtonProps`; for
`UserComponent` both `UserProps` and `UserComponentProps` pass without a
diagnostic; and every emitted violation's `expected` data field carries the
full `{ComponentName}Props` form, never the suffix-stripped one. -/
theorem expectedInterfaceNaming :
    CPIN.fullExpectedName "Button" = "ButtonProps" ∧
    CPIN.reportDecision "UserComponent" (Option.some "UserProps") = Option.none ∧
    CPIN.reportDecision "UserComponent" (Option.some "UserComponentProps") = Option.none ∧
    ∀ (componentName : String) (actual : Option String) (r : CPIN.CpinReport),
      CPIN.reportDecision componentName actual = Option.some r →
      r.expected = CPIN.fullExpectedName componentName := by
  refine ⟨by decide, by decide, by decide, ?_⟩
  intro componentName actual r h
  cases actual with
  | none => simp [CPIN.reportDecision] at h
  | some a =>
    by_cases hc :
      (a != CPIN.fullExpectedName componentName && a != CPIN.baseExpectedName componentName) = true
    · simp [CPIN.reportDecision, hc] at h
      rw [← h]
    · simp [CPIN.reportDecision, hc] at h

/-- C6 witness: the mismatching interface `ButtonOptions` on `UserComponent`
is reported with the full expected form `UserComponentProps`. -/
theorem expectedInterfaceNamingWitness :
    CPIN.reportDecision "UserComponent" (Option.some "ButtonOptions")
      = Option.some ⟨"ButtonOptions", "UserComponent", "UserComponentProps"⟩ ∧
    CPIN.CpinReport.expected ⟨"ButtonOptions", "UserComponent", "UserComponentProps"⟩
      = CPIN.fullExpectedName "UserComponent" :=
  ⟨by decide,
   expectedInterfaceNaming.2.2.2 "UserComponent" (Option.some "ButtonOptions") _ (by decide)⟩

/-- Helper: the local useState check fails whenever the callee is not the
identifier `useState`. -/
theorem isUseStateWithBooleanL_callee_ne (c : Node) (tArgs : List TSType) (args : NodeList)
    (h : match c with | .ident s _ => s ≠ "useState" | _ => True) :
    RBPI.isUseStateWithBooleanL (.call c tArgs args) = false := by
  cases c <;> simp_all [RBPI.isUseStateWithBooleanL]

/-- C10: the require-boolean-prefix-is VariableDeclarator handler on an array
destructuring: a `useState` call whose first argument is a boolean literal or
boolean-shaped expression makes the first destructured identifier reported
with an `is`-suggestion unless it already carries an `is`/`IS_`/`_is` prefix;
no diagnostic arises with a prefixed name, a non-`useState` callee, zero
arguments, a spread first argument, or a non-boolean-shaped first argument. -/
theorem useStateBooleanNaming :
    (∀ (name : String) (tyA : Option TSType) (rest : NodeList)
       (c : Node) (tArgs : List TSType) (args : NodeList),
       RBPI.isUseStateWithBooleanL (.call c tArgs args) = true →
       RBPI.hasIsPrefixed name = false →
       RBPI.variableDeclaratorHandler (.arrayPattern (.cons (.ident name tyA) rest))
         (.some (.call c tArgs args)) = [(name, RBPI.suggestIsName name)]) ∧
    (∀ (name : String) (tyA : Option TSType) (rest : NodeList)
       (c : Node) (tArgs : List TSType) (args : NodeList),
       RBPI.hasIsPrefixed name = true →
       RBPI.variableDeclaratorHandler (.arrayPattern (.cons (.ident name tyA) rest))
         (.some (.call c tArgs args)) = []) ∧
    (∀ (elems : NodeList) (c : Node) (tArgs : List TSType) (args : NodeList),
       (match c with | .ident s _ => s ≠ "useState" | _ => True) →
       RBPI.variableDeclaratorHandler (.arrayPattern elems)
         (.some (.call c tArgs args)) = []) ∧
    (∀ (elems : NodeList) (c : Node) (tArgs : List TSType),
       RBPI.variableDeclaratorHandler (.arrayPattern elems)
         (.some (.call c tArgs .nil)) = []) ∧
    (∀ (elems : NodeList) (c : Node) (tArgs : List TSType) (sp : Node) (rest : NodeList),
       RBPI.variableDeclaratorHandler (.arrayPattern elems)
         (.some (.call c tArgs (.cons (.spreadElem sp) rest))) = []) ∧
    (∀ (elems : NodeList) (c : Node) (tArgs : List TSType) (e : Node) (rest : NodeList),
       isBooleanLiteral e = false → RBPI.isBooleanExpression e = false →
       RBPI.variableDeclaratorHandler (.arrayPattern elems)
         (.some (.call c tArgs (.cons e rest))) = []) := by
  refine ⟨?_, ?_, ?_, ?_, ?_, ?_⟩
  · intro name tyA rest c tArgs args hu hp
    simp [RBPI.variableDeclaratorHandler, hu, RBPI.reportBooleanNaming, hp]
  · intro name tyA rest c tArgs args hp
    by_cases hu : RBPI.isUseStateWithBooleanL (.call c tArgs args) = true
    · simp [RBPI.variableDeclaratorHandler, hu, RBPI.reportBooleanNaming, hp]
    · simp only [Bool.not_eq_true] at hu
      simp [RBPI.variableDeclaratorHandler, hu]
  · intro elems c tArgs args h
    simp [RBPI.variableDeclaratorHandler, isUseStateWithBooleanL_callee_ne c tArgs args h]
  · intro elems c tArgs
    have hu : RBPI.isUseStateWithBooleanL (.call c tArgs .nil) = false := by
      cases c <;> simp [RBPI.isUseStateWithBooleanL]
    simp [RBPI.variableDeclaratorHandler, hu]
  · intro elems c tArgs sp rest
    have hu : RBPI.isUseStateWithBooleanL (.call c tArgs (.cons (.spreadElem sp) rest)) = false := by
      cases c <;> simp [RBPI.isUseStateWithBooleanL]
    simp [RBPI.variableDeclaratorHandler, hu]
  · intro elems c tArgs e rest h1 h2
    have hu : RBPI.isUseStateWithBooleanL (.call c tArgs (.cons e rest)) = false := by
      cases e <;> cases c <;> simp_all [RBPI.isUseStateWithBooleanL]
    simp [RBPI.variableDeclaratorHandler, hu]

/-- C10 witness: each case of the useState naming theorem at concrete inputs:
`const [visible] = useState(false)` is reported with suggestion `isVisible`;
`[isOpen]` is compliant; a non-useState callee, a zero-argument call, a
spread first argument, and a numeric first argument draw nothing. -/
theorem useStateBooleanNamingWitness :
    RBPI.variableDeclaratorHandler (.arrayPattern (.cons (nid "visible") .nil))
        (.some (.call (nid "useState") [] (.cons (.boolLit false) .nil)))
      = [("visible", "isVisible")] ∧
    RBPI.variableDeclaratorHandler (.arrayPattern (.cons (nid "isOpen") .nil))
        (.some (.call (nid "useState") [] (.cons (.boolLit false) .nil))) = [] ∧
    RBPI.variableDeclaratorHandler (.arrayPattern (.cons (nid "visible") .nil))
        (.some (.call (nid "fetchData") [] (.cons (.boolLit false) .nil))) = [] ∧
    RBPI.variableDeclaratorHandler (.arrayPattern (.cons (nid "visible") .nil))
        (.some (.call (nid "useState") [] .nil)) = [] ∧
    RBPI.variableDeclaratorHandler (.arrayPattern (.cons (nid "visible") .nil))
        (.some (.call (nid "useState") [] (.cons (.spreadElem (nid "xs")) .nil))) = [] ∧
    RBPI.variableDeclaratorHandler (.arrayPattern (.cons (nid "visible") .nil))
        (.some (.call (nid "useState") [] (.cons (.numLit 0) .nil))) = [] := by
  refine ⟨?_, ?_, ?_, ?_, ?_, ?_⟩
  · exact (useStateBooleanNaming.1 "visible" Option.none .nil _ _ _
      (by decide) (by decide)).trans (by decide)
  · exact useStateBooleanNaming.2.1 "isOpen" Option.none .nil _ _ _ (by decide)
  · exact useStateBooleanNaming.2.2.1 _ _ _ _
      (by show "fetchData" ≠ "useState"; decide)
  · exact useStateBooleanNaming.2.2.2.1 _ _ _
  · exact useStateBooleanNaming.2.2.2.2.1 _ _ _ _ _
  · exact useStateBooleanNaming.2.2.2.2.2 _ _ _ _ _ (by decide) (by decide)

/-- A list is a prefix (by `isPrefixOf`) of itself followed by anything. -/
theorem isPrefixOfSelfAppend (l t : Chars) : l.isPrefixOf (l ++ t) = true := by
  induction l with
  | nil => simp [List.isPrefixOf]
  | cons c cs ih => simp [List.isPrefixOf, ih]

/-- `^lp[A-Z]` matches `lp` followed by an ASCII capital. -/
theorem camelMatchAppendAZ (lp t : Chars) (c : Char) (h : isAZChar c = true) :
    camelMatch lp (lp ++ c :: t) = true := by
  simp [camelMatch, isPrefixOfSelfAppend, List.drop_left, h]

/-- Peeling one equal leading character off both arguments of `camelMatch`. -/
theorem camelMatchCons (x : Char) (lp s : Chars) :
    camelMatch (x :: lp) (x :: s) = camelMatch lp s := by
  simp [camelMatch, List.isPrefixOf]

/-- After one rewriting pass on an all-lowercase prefix and a name of stable
shape, the suggested name passes the compliance check. -/
theorem suggestKeepsValid (name p : Chars) (hp : lowerChars p = p)
    (h : (validPrefixCheck name p || isConstChars name || stableSuggestShape name) = true) :
    validPrefixCheck (suggestPrefixedName name [p]) p = true := by
  by_cases hv : validPrefixCheck name p = true
  · simp [suggestPrefixedName, hv]
  · have hv' : validPrefixCheck name p = false := Bool.eq_false_iff.mpr hv
    rw [hv'] at h
    simp only [Bool.false_or] at h
    by_cases hc : isConstChars name = true
    · have hsug : suggestPrefixedName name [p] = upperChars p ++ '_' :: name := by
        simp [suggestPrefixedName, hv', hc]
      rw [hsug]
      have h2 : ((upperChars p ++ ['_']).isPrefixOf (upperChars p ++ '_' :: name)) = true := by
        have hrw : upperChars p ++ '_' :: name = (upperChars p ++ ['_']) ++ name := by simp
        rw [hrw]
        exact isPrefixOfSelfAppend _ _
      simp [validPrefixCheck, h2]
    · have hc' : isConstChars name = false := Bool.eq_false_iff.mpr hc
      rw [hc'] at h
      simp only [Bool.false_or] at h
      cases name with
      | nil => simp [stableSuggestShape] at h
      | cons c cs =>
        by_cases hus : (c == '_') = true
        · have hc0 : c = '_' := by simpa using hus
          subst hc0
          cases cs with
          | nil => simp [stableSuggestShape] at h
          | cons c2 t =>
            have h2 : isAZChar c2.toUpper = true := by
              simpa [stableSuggestShape] using h
            have hsug : suggestPrefixedName ('_' :: c2 :: t) [p]
                = '_' :: (p ++ (c2.toUpper :: t)) := by
              simp [suggestPrefixedName, hv', hc', startsWithUS, capitalizeChars]
            rw [hsug]
            have h3 : camelMatch ('_' :: lowerChars p) ('_' :: (p ++ c2.toUpper :: t)) = true := by
              rw [hp, camelMatchCons]
              exact camelMatchAppendAZ p t c2.toUpper h2
            simp [validPrefixCheck, h3]
        · have hcne : (c == '_') = false := Bool.eq_false_iff.mpr hus
          have h2 : isAZChar c.toUpper = true := by
            simpa [stableSuggestShape, hcne] using h
          have hsug : suggestPrefixedName (c :: cs) [p] = p ++ (c.toUpper :: cs) := by
            simp [suggestPrefixedName, hv', hc', startsWithUS, hcne, capitalizeChars]
          rw [hsug]
          have h3 : camelMatch (lowerChars p) (p ++ c.toUpper :: cs) = true := by
            rw [hp]
            exact camelMatchAppendAZ p cs c.toUpper h2
          simp [validPrefixCheck, h3]

/-- An already-compliant name is a fixed point of the suggestion. -/
theorem suggestAlreadyValidFixed (s p : Chars) (h : validPrefixCheck s p = true) :
    suggestPrefixedName s [p] = s := by
  simp [suggestPrefixedName, h]

/-- C8 counterexample: the suggestion is not idempotent as claimed for all
names: starting from the name `1a` with the single allowed entry `is`, one
pass yields `is1a`, which fails the compliance check (the character after
`is` is not an ASCII capital), so a second pass yields `isIs1a`. -/
theorem suggestPrefixedNameNotIdempotent :
    suggestPrefixedName (suggestPrefixedName ['1','a'] [['i','s']]) [['i','s']]
      ≠ suggestPrefixedName ['1','a'] [['i','s']] := by decide

/-- C8 amended: the suggestion is idempotent for a single allowed entry `p`
that equals its own lowercasing, on every name that is already compliant, or
an all-caps/underscore/digit constant name, or whose first character (after
at most one leading underscore) uppercases to an ASCII capital. -/
theorem suggestPrefixedNameIdem (name p : Chars) (hp : lowerChars p = p)
    (h : (validPrefixCheck name p || isConstChars name || stableSuggestShape name) = true) :
    suggestPrefixedName (suggestPrefixedName name [p]) [p] = suggestPrefixedName name [p] :=
  suggestAlreadyValidFixed _ _ (suggestKeepsValid name p hp h)

/-- C8 witness: the amended idempotence at name `visible`, allowed entry `is`. -/
theorem suggestPrefixedNameIdemWitness :
    lowerChars ['i','s'] = ['i','s'] ∧
    stableSuggestShape ['v','i','s','i','b','l','e'] = true ∧
    suggestPrefixedName (suggestPrefixedName ['v','i','s','i','b','l','e'] [['i','s']])
        [['i','s']]
      = suggestPrefixedName ['v','i','s','i','b','l','e'] [['i','s']] :=
  ⟨by decide, by decide, suggestPrefixedNameIdem _ _ (by decide) (by decide)⟩
